import Mathlib

/-!
Verification of the streaming corpus codec of `gensim/corpora/ucicorpus.py` and
`gensim/corpora/mmcorpus.py`: a byte-level shallow embedding of the UCI
bag-of-words writer and reader, together with the grouping algorithm of the
matrix-market streaming reader (the latter modelled from the specification,
since only a Cython stub of it is present in the sources).

Files are modelled as lists of characters with an explicit cursor position;
documents are sparse bags of words whose weights are rational numbers (the
stand-in for Python numerics), coerced to integers by the UCI dialect exactly
as `int()` does (truncation toward zero).
-/

/-- Decimal digit characters, used to build the exact bytes that
`str(n)` produces for a non-negative integer. -/
def digitChar : Nat → Char
  | 0 => '0' | 1 => '1' | 2 => '2' | 3 => '3' | 4 => '4'
  | 5 => '5' | 6 => '6' | 7 => '7' | 8 => '8' | _ => '9'

/-- Fuel-driven decimal printer: `natReprAux fuel n` is the decimal
representation of `n`, provided `n < fuel`. Structural recursion on the fuel
keeps it kernel-reducible. -/
def natReprAux : Nat → Nat → List Char
  | 0, _ => []
  | fuel + 1, n =>
    if n < 10 then [digitChar n]
    else natReprAux fuel (n / 10) ++ [digitChar (n % 10)]

/-- The bytes of `str(n)` for a natural number. -/
def reprNat (n : Nat) : List Char := natReprAux (n + 1) n

/-- The bytes of `str(n)` for an integer (Python prints a leading minus sign
for negative values). -/
def reprInt : Int → List Char
  | Int.ofNat n => reprNat n
  | Int.negSucc n => '-' :: reprNat (n + 1)

/-- Python `int(q)` on a rational: truncation toward zero — `Int.div`, the
truncating division of the reduced numerator by the denominator. -/
def pyInt (q : ℚ) : Int := q.num.tdiv (q.den : Int)

/-- A document in gensim bag-of-words form: `(feature_id, weight)` pairs. -/
abbrev Bow := List (Nat × ℚ)

/-- An on-disk file: its bytes and the current cursor position of the single
shared handle. -/
structure WFile where
  data : List Char
  pos : Nat
deriving DecidableEq, Inhabited

/-- `fout.write(s)`: overwrite bytes starting at the cursor (appending when the
cursor sits at the end of the file), then advance the cursor. -/
def WFile.write (f : WFile) (s : List Char) : WFile :=
  ⟨f.data.take f.pos ++ s ++ f.data.drop (f.pos + s.length), f.pos + s.length⟩

/-- `fout.seek(p)`. -/
def WFile.seek (f : WFile) (p : Nat) : WFile := ⟨f.data, p⟩

/-- `UciWriter.MAX_HEADER_LENGTH = 20`: bytes reserved per header value. -/
def MAX_HEADER_LENGTH : Nat := 20

/-- `UciWriter.FAKE_HEADER`: twenty spaces and a newline, the placeholder
written for each of the three header lines. -/
def FAKE_HEADER : List Char := List.replicate MAX_HEADER_LENGTH ' ' ++ ['\n']

/-- `UciWriter.write_headers`: three blank header lines, updated later once the
corpus statistics are known (the `last_docno`/`headers_written` bookkeeping of
the source carries no information for the claims and is omitted). -/
def write_headers (f : WFile) : WFile :=
  ((f.write FAKE_HEADER).write FAKE_HEADER).write FAKE_HEADER

/-- The loop body of `UciWriter.update_headers`: for each printed value, fail
if it is longer than `FAKE_HEADER` (note: 21 bytes, the padded line including
its newline), otherwise seek to the running offset, overwrite, and advance the
offset by the length of `FAKE_HEADER`. -/
def updateValues : WFile → Nat → List (List Char) → Except String WFile
  | f, _, [] => Except.ok f
  | f, offset, v :: rest =>
    if v.length > FAKE_HEADER.length then
      Except.error "Invalid header: value too large!"
    else updateValues ((f.seek offset).write v) (offset + FAKE_HEADER.length) rest

/-- `UciWriter.update_headers(num_docs, num_terms, num_nnz)`. -/
def update_headers (f : WFile) (num_docs num_terms num_nnz : Int) :
    Except String WFile :=
  updateValues f 0 [reprInt num_docs, reprInt num_terms, reprInt num_nnz]

/-- The single entry line `"%i %i %s\n" % (docno + 1, termid + 1, weight)`
that the matrix-market writer emits for one non-zero cell. -/
def entryLine (docno termid : Nat) (w : Int) : List Char :=
  reprNat (docno + 1) ++ ' ' :: reprNat (termid + 1) ++ ' ' :: reprInt w ++ ['\n']

/-- Modelled from the spec: `MmWriter.write_vector` (from `gensim.matutils`,
which is not among the shown sources). Per the specification it writes one
entry line per pair, in increasing feature-id order, and reports the largest
feature id seen (`-1` for an empty document) together with the number of lines
written. -/
def write_vector (f : WFile) (docno : Nat) (vector : List (Nat × Int)) :
    WFile × Int × Nat :=
  let sorted := vector.insertionSort fun a b => a.1 < b.1 ∨ (a.1 = b.1 ∧ a.2 ≤ b.2)
  let f' := sorted.foldl (fun g p => g.write (entryLine docno p.1 p.2)) f
  (f', vector.foldl (fun a p => max a (p.1 : Int)) (-1), vector.length)

/-- The vector actually handed to `write_vector` by `UciWriter.write_corpus`:
`[(x, int(y)) for (x, y) in bow if int(y) != 0]`. -/
def docVector (bow : Bow) : List (Nat × Int) :=
  (bow.map fun p => (p.1, pyInt p.2)).filter fun p => p.2 != 0

/-- Mutable state of the `UciWriter.write_corpus` loop. -/
structure WcState where
  f : WFile
  num_terms : Int
  num_nnz : Nat
  docno : Int
  poslast : Int
  offsets : List Int
deriving Inhabited

/-- One iteration of the `UciWriter.write_corpus` loop: record the byte offset
of the document (replacing the previous slot by the `-1` sentinel when the
position did not move), then write the coerced non-zero pairs and update the
running totals. -/
def stepDoc (index : Bool) (st : WcState) (docno : Nat) (bow : Bow) : WcState :=
  let st1 :=
    if index then
      let posnow : Int := (st.f.pos : Int)
      let offs :=
        if posnow = st.poslast then st.offsets.dropLast ++ [(-1 : Int)]
        else st.offsets
      { st with offsets := offs ++ [posnow], poslast := posnow }
    else st
  let wv := write_vector st1.f docno (docVector bow)
  { st1 with
      f := wv.1
      docno := (docno : Int)
      num_terms := max st1.num_terms (1 + wv.2.1)
      num_nnz := st1.num_nnz + wv.2.2 }

/-- The `for docno, bow in enumerate(corpus)` loop. -/
def writeLoop (index : Bool) : WcState → Nat → List Bow → WcState
  | st, _, [] => st
  | st, docno, bow :: rest => writeLoop index (stepDoc index st docno bow) (docno + 1) rest

/-- State right after `write_headers`: blank header written, counters zeroed,
`docno = poslast = -1`. -/
def initState : WcState := ⟨write_headers ⟨[], 0⟩, 0, 0, -1, -1, []⟩

/-- Everything `UciWriter.write_corpus` has produced when it returns. -/
structure WriteResult where
  file : WFile
  offsets : List Int
  num_docs : Int
  num_terms : Int
  num_nnz : Nat
deriving DecidableEq, Inhabited

/-- `UciWriter.write_corpus(fname, corpus, index)`: stream the documents, then
patch the header with the final counts. A header value too wide for its
reserved slot surfaces as the `ValueError` of `update_headers`. -/
def write_corpus (corpus : List Bow) (index : Bool) : Except String WriteResult :=
  let st := writeLoop index initState 0 corpus
  match update_headers st.f (st.docno + 1) st.num_terms (st.num_nnz : Int) with
  | Except.ok f =>
      Except.ok ⟨f, st.offsets, st.docno + 1, st.num_terms, st.num_nnz⟩
  | Except.error e => Except.error e

/-- Project the payload out of a successful write. -/
def getOk (e : Except String WriteResult) : WriteResult := e.toOption.getD default

/-- Iterating a file in binary mode yields its lines, each keeping its
terminating newline; a last unterminated chunk is yielded as well. -/
def splitLinesAux : List Char → List Char → List (List Char)
  | [], acc => if acc.isEmpty then [] else [acc.reverse]
  | c :: rest, acc =>
    if c = '\n' then (acc.reverse ++ ['\n']) :: splitLinesAux rest []
    else splitLinesAux rest (c :: acc)

/-- The lines of a file, as Python line iteration produces them. -/
def splitLines (data : List Char) : List (List Char) := splitLinesAux data []

/-- Whitespace for the purposes of `bytes.strip()`. -/
def isSpaceChar (c : Char) : Bool := c = ' ' || c = '\n' || c = '\t' || c = '\r'

/-- `bytes.strip()`. -/
def pyStrip (cs : List Char) : List Char :=
  ((cs.dropWhile isSpaceChar).reverse.dropWhile isSpaceChar).reverse

/-- Decimal digit test. -/
def isDigitChar (c : Char) : Bool := 48 ≤ c.toNat && c.toNat ≤ 57

/-- Value of a digit string. -/
def digitsVal (cs : List Char) : Nat := cs.foldl (fun a c => a * 10 + (c.toNat - 48)) 0

/-- Python `int(line.strip())`: `none` models the `ValueError` raised on a
non-numeric string. -/
def parsePyInt (cs : List Char) : Option Int :=
  match pyStrip cs with
  | [] => none
  | '-' :: ds =>
      if !ds.isEmpty && ds.all isDigitChar then some (-(digitsVal ds : Int)) else none
  | '+' :: ds =>
      if !ds.isEmpty && ds.all isDigitChar then some ((digitsVal ds : Int)) else none
  | ds => if ds.all isDigitChar then some ((digitsVal ds : Int)) else none

/-- `UciReader.__init__`: counts start at zero, then up to three lines are read
and converted with `int`; running out of lines (`StopIteration`) is silently
swallowed, while a non-numeric line raises `ValueError`. -/
def uciReaderInit (data : List Char) : Except String (Int × Int × Int) :=
  match splitLines data with
  | [] => Except.ok (0, 0, 0)
  | l1 :: rest =>
    match parsePyInt l1 with
    | none => Except.error "ValueError"
    | some nd =>
      match rest with
      | [] => Except.ok (nd, 0, 0)
      | l2 :: rest2 =>
        match parsePyInt l2 with
        | none => Except.error "ValueError"
        | some nt =>
          match rest2 with
          | [] => Except.ok (nd, nt, 0)
          | l3 :: _ =>
            match parsePyInt l3 with
            | none => Except.error "ValueError"
            | some nnz => Except.ok (nd, nt, nnz)

/-- A matrix-market document as the streaming reader yields it. -/
abbrev MmDoc := List (Nat × ℚ)

/-- Modelled from the spec: the grouping loop of `MmReader.__iter__` (only a
Cython stub of it appears in the sources). Entry triples
`(doc_id, feature_id, weight)` arrive sorted by `doc_id`; the loop accumulates
the current document, and on a change of `doc_id` emits the accumulated
document followed by one fabricated empty document per skipped id; on
exhaustion it emits the final document and pads with empty documents up to
`numDocs`. Here `nextid` stands for `previd + 1`, with `previd` the most
recently started document id (initially `-1`). -/
def iterLoop : List (Nat × Nat × ℚ) → Nat → MmDoc → Nat → List (Nat × MmDoc)
  | [], nextid, document, numDocs =>
      (if 0 < nextid then [(nextid - 1, document)] else []) ++
      (List.range' nextid (numDocs - nextid)).map (fun i => (i, []))
  | (docid, termid, val) :: rest, nextid, document, numDocs =>
      if docid + 1 = nextid then
        iterLoop rest nextid (document ++ [(termid, val)]) numDocs
      else
        ((if 0 < nextid then [(nextid - 1, document)] else []) ++
          (List.range' nextid (docid - nextid)).map (fun i => (i, []))) ++
        iterLoop rest (docid + 1) [(termid, val)] numDocs

/-- Modelled from the spec: `MmReader.__iter__` run over the decoded entry
triples of a file whose header declares `numDocs` documents. -/
def mmIterate (entries : List (Nat × Nat × ℚ)) (numDocs : Nat) : List (Nat × MmDoc) :=
  iterLoop entries 0 [] numDocs

/-- `MmCorpus.__iter__`: the same stream with the document ids dropped. -/
def mmCorpusIter (entries : List (Nat × Nat × ℚ)) (numDocs : Nat) : List MmDoc :=
  (mmIterate entries numDocs).map (·.2)

/-- The entries of the stream that belong to document `i`. -/
def entriesFor (i : Nat) (entries : List (Nat × Nat × ℚ)) : MmDoc :=
  (entries.filter fun e => e.1 == i).map fun e => (e.2.1, e.2.2)

/-- All feature ids of the pairs the UCI writer actually writes. -/
def writtenIds (corpus : List Bow) : List Nat :=
  corpus.flatMap fun b => (docVector b).map (·.1)

/-- Accumulate the maximum of `1 + feature id` over a stream of ids. -/
def maxSucc (a : Int) (i : Nat) : Int := max a ((i : Int) + 1)

/-- Accumulate the maximum feature id over a stream of ids. -/
def maxOf (a : Int) (i : Nat) : Int := max a (i : Int)

/-- `1 + ` the largest feature id among written pairs (`0` when none is
written): the header `num_terms` the UCI writer computes from the documents
alone. -/
def specNumTermsUci (corpus : List Bow) : Int :=
  (writtenIds corpus).foldl maxSucc 0

/-- Non-zero pairs of a coordinate-dialect document (weights stay rational). -/
def mmVector (bow : Bow) : List (Nat × ℚ) := bow.filter fun p => p.2 != 0

/-- Modelled from the spec: the header computed by `MmWriter.write_corpus`
(from `gensim.matutils`, not among the shown sources). `num_docs` is the
number of documents consumed, `num_nnz` the number of entry lines, and
`num_terms` is the caller-declared vocabulary size when one is supplied,
otherwise `1 +` the largest observed feature id. -/
def mm_write_corpus_header (corpus : List Bow) (declared : Option Nat) :
    Int × Int × Int :=
  let observed : Int :=
    ((corpus.flatMap mmVector).map (·.1)).foldl maxSucc 0
  ⟨(corpus.length : Int),
   match declared with
   | some n => (n : Int)
   | none => observed,
   ((corpus.map fun bow => (mmVector bow).length).sum : Int)⟩

/-- `MmCorpus.save_corpus`: passes `len(id2word)` (when a mapping is given) as
the declared `num_terms` of the matrix-market writer; returns the header the
writer patches into the file. -/
def mm_save_corpus (corpus : List Bow) (id2word : Option (List (Nat × String))) :
    Int × Int × Int :=
  mm_write_corpus_header corpus (id2word.map fun m => m.length)

/-- Largest key of a vocabulary mapping (`max(id2word)` in Python, meaningful
for a non-empty mapping). -/
def maxKey (m : List (Nat × String)) : Nat := (m.map fun p => p.1).foldl max 0

/-- Modelled from the spec: `utils.dict_from_corpus` (not among the shown
sources) infers the vocabulary from the corpus: one entry per feature id from
`0` up to the largest id appearing in any document. -/
def dict_from_corpus (corpus : List Bow) : List (Nat × String) :=
  (List.range ((corpus.flatMap fun b => b.map (·.1)).foldl (fun a i => max a (i + 1)) 0)).map
    fun i => (i, toString i)

/-- `UciCorpus.save_corpus`: choose `num_terms` (inferred vocabulary size when
no mapping is given, `1 + max(id2word)` for a non-empty mapping, `0` for an
empty one), emit the sibling vocabulary file (one line per feature id, with
the `---` placeholder for ids the mapping lacks), then stream the corpus with
`UciWriter.write_corpus` with the index enabled. -/
def uci_save_corpus (corpus : List Bow) (id2word : Option (List (Nat × String))) :
    List String × Except String WriteResult :=
  let id2w := match id2word with
    | none => dict_from_corpus corpus
    | some m => m
  let num_terms : Nat := match id2word with
    | none => (dict_from_corpus corpus).length
    | some m => if m ≠ [] then 1 + maxKey m else 0
  let vocab := (List.range num_terms).map fun i => ((id2w.lookup i).getD "---") ++ "\n"
  (vocab, write_corpus corpus true)

/-- The relation C2 asserts between consecutive recorded offsets: equal
neighbours may only occur at the `-1` sentinel. -/
def sentinelRel (a b : Int) : Prop := a = b → a = -1

/-- Invariant of the `write_corpus` loop state: consecutive offsets satisfy
`sentinelRel`, and `poslast` is the last recorded offset (or `-1` before any
document was seen). -/
def OffInv (st : WcState) : Prop :=
  List.Chain' sentinelRel st.offsets ∧
  (st.offsets.getLast? = some st.poslast ∨ (st.offsets = [] ∧ st.poslast = -1))

/-- A final header line: the printed value right-padded with spaces to
`MAX_HEADER_LENGTH` and terminated by the newline of its reserved slot. -/
def hline (v : Int) : List Char :=
  reprInt v ++ (List.replicate (MAX_HEADER_LENGTH - (reprInt v).length) ' ' ++ ['\n'])

deriving instance DecidableEq for Except

/-- C9: writing an empty iterable of documents with the UCI writer succeeds,
the header is patched to `num_docs = num_terms = num_nnz = 0` (re-parsing the
written file recovers exactly these counts), and the returned offsets list is
empty. -/
theorem c9_empty_write :
    (write_corpus [] true).map
        (fun r => (r.offsets, r.num_docs, r.num_terms, r.num_nnz)) =
      Except.ok ([], 0, 0, 0) ∧
    (write_corpus [] true).map (fun r => uciReaderInit r.file.data) =
      Except.ok (Except.ok (0, 0, 0)) := by
  constructor <;> decide

/-- C4: the overflow check of `update_headers` compares against
`len(FAKE_HEADER) = MAX_HEADER_LENGTH + 1 = 21` rather than the documented
`MAX_HEADER_LENGTH = 20`: a count whose decimal representation is 21 bytes
long (`10 ^ 20`) exceeds the reserved per-value width yet raises no error —
its last byte silently overwrites the newline of the reserved line — while
only a 22-byte value (`10 ^ 21`) raises. -/
theorem c4_header_overflow_off_by_one :
    (reprInt (10 ^ 20)).length = 21 ∧
    MAX_HEADER_LENGTH = 20 ∧
    (update_headers (write_headers ⟨[], 0⟩) 1 (10 ^ 20) 1).isOk = true ∧
    (update_headers (write_headers ⟨[], 0⟩) 1 (10 ^ 21) 1).isOk = false := by
  refine ⟨by decide, by decide, by decide, by decide⟩

/-- C3: the final counts computed by `write_corpus` do match the claim
(`num_docs = 1`, `num_terms = 1 + max id = 10 ^ 20`, `num_nnz = 1`), but for
this corpus the patched `num_terms` value is 21 bytes long, overwrites the
newline of its reserved header line, and re-parsing the written file fails
instead of returning the computed header. -/
theorem c3_header_integrity_violation :
    (write_corpus [[(10 ^ 20 - 1, (1 : ℚ))]] true).map
        (fun r => (r.num_docs, r.num_terms, r.num_nnz)) =
      Except.ok (1, 10 ^ 20, 1) ∧
    (write_corpus [[(10 ^ 20 - 1, (1 : ℚ))]] true).map
        (fun r => uciReaderInit r.file.data) =
      Except.ok (Except.error "ValueError") := by
  constructor <;> decide

/-- C8 counterexample: opening an empty UCI file does not fail at all — the
reader is constructed with the default counts `(0, 0, 0)`, contradicting the
claim that a file without three well-formed header lines aborts with a format
error. -/
theorem c8_counterexample : uciReaderInit [] = Except.ok (0, 0, 0) := by decide

/-- C7 counterexample: saving the corpus `[[(0, 1)]]` in UCI format with the
declared three-word vocabulary `{0, 1, 2}` patches `num_terms = 1` (the
observed `1 + max feature id`) into the file header, not the declared
vocabulary size `3`. -/
theorem c7_counterexample :
    ((uci_save_corpus [[(0, (1 : ℚ))]] (some [(0, "a"), (1, "b"), (2, "c")])).2).map
        (fun r => r.num_terms) = Except.ok 1 ∧
    ([(0, "a"), (1, "b"), (2, "c")] : List (Nat × String)).length = 3 ∧
    1 + maxKey [(0, "a"), (1, "b"), (2, "c")] = 3 ∧
    (1 : Int) ≠ 3 := by
  refine ⟨by decide, by decide, by decide, by decide⟩

/-- C5 counterexample: after patching the header with values `3, 4, 5`, the
byte at offset `1 * MAX_HEADER_LENGTH = 20` is the newline terminating the
first reserved line and the byte at `2 * MAX_HEADER_LENGTH = 40` is padding —
the second and third values actually start at offsets `21` and `42`, so the
seek offsets are not `index * MAX_HEADER_LENGTH`. -/
theorem c5_counterexample :
    (update_headers (write_headers ⟨[], 0⟩) 3 4 5).map
        (fun f => ((f.data.drop (1 * MAX_HEADER_LENGTH)).take 1,
                   (f.data.drop (2 * MAX_HEADER_LENGTH)).take 1,
                   (f.data.drop 21).take 1,
                   (f.data.drop 42).take 1)) =
      Except.ok (['\n'], [' '], ['4'], ['5']) ∧
    (['\n'] : List Char) ≠ ['4'] ∧ ([' '] : List Char) ≠ ['5'] := by
  refine ⟨by decide, by decide, by decide⟩

theorem entriesFor_nil (i : Nat) : entriesFor i [] = [] := rfl

theorem entriesFor_cons_self (d t : Nat) (v : ℚ) (rest : List (Nat × Nat × ℚ)) :
    entriesFor d ((d, t, v) :: rest) = (t, v) :: entriesFor d rest := by
  simp [entriesFor, List.filter_cons]

theorem entriesFor_cons_ne {i d : Nat} (h : d ≠ i) (t : Nat) (v : ℚ)
    (rest : List (Nat × Nat × ℚ)) :
    entriesFor i ((d, t, v) :: rest) = entriesFor i rest := by
  simp [entriesFor, List.filter_cons, h]

theorem entriesFor_eq_nil {i : Nat} {l : List (Nat × Nat × ℚ)}
    (h : ∀ e ∈ l, e.1 ≠ i) : entriesFor i l = [] := by
  unfold entriesFor
  rw [List.filter_eq_nil_iff.mpr (by simpa using h)]
  rfl

theorem iterLoop_spec (entries : List (Nat × Nat × ℚ)) :
    ∀ (nextid : Nat) (doc : MmDoc) (N : Nat),
    List.Pairwise (fun a b => a.1 ≤ b.1) entries →
    (∀ e ∈ entries, nextid ≤ e.1 + 1) →
    (∀ e ∈ entries, e.1 < N) →
    nextid ≤ N →
    iterLoop entries nextid doc N =
      (if 0 < nextid then [(nextid - 1, doc ++ entriesFor (nextid - 1) entries)]
       else []) ++
      (List.range' nextid (N - nextid)).map (fun i => (i, entriesFor i entries)) := by
  induction entries with
  | nil =>
    intro nextid doc N _ _ _ _
    simp [iterLoop, entriesFor_nil]
  | cons e rest ih =>
    obtain ⟨d, t, v⟩ := e
    intro nextid doc N hp hge hlt hN
    have hhead : ∀ x ∈ rest, d ≤ x.1 := fun x hx => (List.pairwise_cons.mp hp).1 x hx
    have hrest : List.Pairwise (fun a b => a.1 ≤ b.1) rest := (List.pairwise_cons.mp hp).2
    have hdN : d < N := hlt (d, t, v) (by simp)
    have hltr : ∀ x ∈ rest, x.1 < N := fun x hx => hlt x (List.mem_cons_of_mem _ hx)
    by_cases hd : d + 1 = nextid
    · have hpos : 0 < nextid := by omega
      have step : iterLoop ((d, t, v) :: rest) nextid doc N =
          iterLoop rest nextid (doc ++ [(t, v)]) N := by
        simp [iterLoop, hd]
      rw [step, ih nextid (doc ++ [(t, v)]) N hrest
          (fun x hx => by have := hhead x hx; omega) hltr hN]
      have h1 : nextid - 1 = d := by omega
      have h2 : entriesFor (nextid - 1) ((d, t, v) :: rest) =
          (t, v) :: entriesFor (nextid - 1) rest := by
        rw [h1]; exact entriesFor_cons_self d t v rest
      have h3 : (List.range' nextid (N - nextid)).map
            (fun i => (i, entriesFor i rest)) =
          (List.range' nextid (N - nextid)).map
            (fun i => (i, entriesFor i ((d, t, v) :: rest))) := by
        apply List.map_congr_left
        intro i hi
        have : nextid ≤ i := by
          rcases List.mem_range'.mp hi with ⟨k, _, rfl⟩
          omega
        rw [entriesFor_cons_ne (by omega) t v rest]
      rw [if_pos hpos, if_pos hpos, h2, ← h3]
      simp
    · have hnd : nextid ≤ d := by
        have := hge (d, t, v) (by simp)
        omega
      have step : iterLoop ((d, t, v) :: rest) nextid doc N =
          ((if 0 < nextid then [(nextid - 1, doc)] else []) ++
            (List.range' nextid (d - nextid)).map (fun i => (i, []))) ++
          iterLoop rest (d + 1) [(t, v)] N := by
        simp [iterLoop, hd]
      rw [step, ih (d + 1) [(t, v)] N hrest
          (fun x hx => by have := hhead x hx; omega) hltr (by omega)]
      -- split the full id range at the head document id
      have hsplit : List.range' nextid (N - nextid) =
          List.range' nextid (d - nextid) ++ (d :: List.range' (d + 1) (N - (d + 1))) := by
        have h4 : List.range' d (N - d) = d :: List.range' (d + 1) (N - (d + 1)) := by
          have h5 : N - d = (N - (d + 1)) + 1 := by omega
          rw [h5, List.range'_succ]
        have h6 : N - nextid = (N - d) + (d - nextid) := by omega
        rw [← h4, h6, ← List.range'_append_1 nextid (d - nextid) (N - d)]
        have h7 : nextid + (d - nextid) = d := by omega
        rw [h7]
      have hifeq : (if 0 < nextid then
            [(nextid - 1, doc ++ entriesFor (nextid - 1) ((d, t, v) :: rest))]
          else []) = (if 0 < nextid then [(nextid - 1, doc)] else []) := by
        by_cases hpos : 0 < nextid
        · rw [if_pos hpos, if_pos hpos]
          have : entriesFor (nextid - 1) ((d, t, v) :: rest) = [] := by
            apply entriesFor_eq_nil
            intro x hx
            rcases List.mem_cons.mp hx with h | h
            · rw [h]; omega
            · have := hhead x h; omega
          rw [this]
          simp
        · rw [if_neg hpos, if_neg hpos]
      rw [hsplit]
      rw [List.map_append]
      have hgap : (List.range' nextid (d - nextid)).map
            (fun i => (i, entriesFor i ((d, t, v) :: rest))) =
          (List.range' nextid (d - nextid)).map (fun i => (i, ([] : MmDoc))) := by
        apply List.map_congr_left
        intro i hi
        rcases List.mem_range'.mp hi with ⟨k, hk, rfl⟩
        have : entriesFor (nextid + 1 * k) ((d, t, v) :: rest) = [] := by
          apply entriesFor_eq_nil
          intro x hx
          rcases List.mem_cons.mp hx with h | h
          · rw [h]; omega
          · have := hhead x h; omega
        rw [this]
      have hmapcons : (d :: List.range' (d + 1) (N - (d + 1))).map
            (fun i => (i, entriesFor i ((d, t, v) :: rest))) =
          (d, (t, v) :: entriesFor d rest) ::
            (List.range' (d + 1) (N - (d + 1))).map (fun i => (i, entriesFor i rest)) := by
        rw [List.map_cons, entriesFor_cons_self]
        congr 1
        apply List.map_congr_left
        intro i hi
        rcases List.mem_range'.mp hi with ⟨k, hk, rfl⟩
        rw [entriesFor_cons_ne (by omega) t v rest]
      rw [hgap, hmapcons, hifeq]
      simp

/-- C1: over a well-formed entry stream (document ids sorted ascending and
below the declared count, as the format guarantees and the reader asserts), a
full iteration emits exactly one document per id `0 .. N - 1` in order — the
document carrying the entries of that id, which is empty for every id with no
entry lines — so the number of emitted documents is exactly the declared
`num_docs`, for both `MmReader.__iter__` and the id-dropping
`MmCorpus.__iter__`. -/
theorem c1_gap_fill (entries : List (Nat × Nat × ℚ)) (N : Nat)
    (hmono : List.Pairwise (fun a b => a.1 ≤ b.1) entries)
    (hlt : ∀ e ∈ entries, e.1 < N) :
    mmIterate entries N = (List.range N).map (fun i => (i, entriesFor i entries)) ∧
    (mmIterate entries N).length = N ∧
    (mmCorpusIter entries N).length = N := by
  have h := iterLoop_spec entries 0 [] N hmono (fun e _ => by omega) hlt (by omega)
  have hmain : mmIterate entries N =
      (List.range N).map (fun i => (i, entriesFor i entries)) := by
    unfold mmIterate
    rw [h, List.range_eq_range']
    simp
  refine ⟨hmain, ?_, ?_⟩
  · rw [hmain]; simp
  · unfold mmCorpusIter
    rw [hmain]; simp

/-- Witness for C1 at a concrete stream: two entries for documents 0 and 2 of
a four-document corpus; documents 1 and 3 are fabricated empty. -/
theorem c1_gap_fill_witness :
    mmIterate [(0, 2, (5 : ℚ)), (2, 1, 3)] 4 =
      (List.range 4).map (fun i => (i, entriesFor i [(0, 2, (5 : ℚ)), (2, 1, 3)])) ∧
    (mmIterate [(0, 2, (5 : ℚ)), (2, 1, 3)] 4).length = 4 ∧
    (mmCorpusIter [(0, 2, (5 : ℚ)), (2, 1, 3)] 4).length = 4 :=
  c1_gap_fill [(0, 2, (5 : ℚ)), (2, 1, 3)] 4 (by decide) (by decide)

theorem stepDoc_offInv (index : Bool) (st : WcState) (docno : Nat) (bow : Bow)
    (h : OffInv st) : OffInv (stepDoc index st docno bow) := by
  obtain ⟨hchain, hlast⟩ := h
  unfold stepDoc
  by_cases hix : index
  · simp only [if_pos hix]
    by_cases heq : (st.f.pos : Int) = st.poslast
    · have hne : st.offsets ≠ [] := by
        intro hnil
        rcases hlast with hl | ⟨_, hpl⟩
        · rw [hnil] at hl; simp at hl
        · rw [hpl] at heq
          omega
      have hdecomp : st.offsets.dropLast ++ [st.offsets.getLast hne] = st.offsets :=
        List.dropLast_append_getLast hne
      have hdrop : List.Chain' sentinelRel st.offsets.dropLast := by
        rw [← hdecomp] at hchain
        exact (List.chain'_append.mp hchain).1
      constructor
      · simp only [if_pos heq]
        refine List.chain'_append.mpr ⟨?_, List.chain'_singleton _, ?_⟩
        · refine List.chain'_append.mpr ⟨hdrop, List.chain'_singleton _, ?_⟩
          intro x _ y hy
          simp at hy
          subst hy
          exact fun h' => h'
        · intro x hx y hy
          simp at hx hy
          subst hx
          subst hy
          intro _
          rfl
      · left
        simp [List.getLast?_concat]
    · constructor
      · simp only [if_neg heq]
        refine List.chain'_append.mpr ⟨hchain, List.chain'_singleton _, ?_⟩
        intro x hx y hy
        simp at hy
        rcases hlast with hl | ⟨hnil, _⟩
        · rw [hl] at hx
          simp at hx
          subst hx
          subst hy
          intro hcontra
          exact absurd hcontra.symm heq
        · rw [hnil] at hx
          simp at hx
      · left
        simp [List.getLast?_concat]
  · simp only [if_neg hix]
    exact ⟨hchain, hlast⟩

theorem writeLoop_offInv (index : Bool) (bows : List Bow) :
    ∀ (st : WcState) (docno : Nat), OffInv st → OffInv (writeLoop index st docno bows) := by
  induction bows with
  | nil => intro st docno h; exact h
  | cons bow rest ih =>
    intro st docno h
    exact ih (stepDoc index st docno bow) (docno + 1) (stepDoc_offInv index st docno bow h)

/-- C2: whenever an indexed UCI write returns, its offsets list satisfies the
sentinel discipline — two consecutive equal entries can only be the `-1`
sentinel, never a duplicated real byte offset. -/
theorem c2_offset_sentinel (corpus : List Bow)
    (h : (write_corpus corpus true).isOk = true) :
    List.Chain' sentinelRel (getOk (write_corpus corpus true)).offsets := by
  have hinv : OffInv (writeLoop true initState 0 corpus) :=
    writeLoop_offInv true corpus initState 0 ⟨List.chain'_nil, Or.inr ⟨rfl, rfl⟩⟩
  unfold getOk write_corpus
  cases hu : update_headers (writeLoop true initState 0 corpus).f
      ((writeLoop true initState 0 corpus).docno + 1)
      (writeLoop true initState 0 corpus).num_terms
      ((writeLoop true initState 0 corpus).num_nnz : Int) with
  | ok f => simp only [hu]; exact hinv.1
  | error e =>
    exfalso
    unfold write_corpus at h
    simp only [hu] at h
    simp [Except.isOk, Except.toBool] at h

/-- Witness for C2: the concrete three-document corpus of the specification
scenario, whose middle document is empty. -/
theorem c2_offset_sentinel_witness :
    List.Chain' sentinelRel
      (getOk (write_corpus [[(0, (1 : ℚ)), (2, 3)], [], [(1, 2)]] true)).offsets :=
  c2_offset_sentinel [[(0, (1 : ℚ)), (2, 3)], [], [(1, 2)]] (by decide)

theorem seekWrite_block (pre mid post v : List Char) (q : Nat)
    (hv : v.length ≤ mid.length) :
    WFile.write (WFile.seek ⟨pre ++ (mid ++ post), q⟩ pre.length) v =
      ⟨pre ++ ((v ++ mid.drop v.length) ++ post), pre.length + v.length⟩ := by
  unfold WFile.seek WFile.write
  simp only [WFile.mk.injEq]
  constructor
  · rw [List.take_left]
    rw [← List.drop_drop, List.drop_left]
    rw [List.drop_append_of_le_length hv]
    simp [List.append_assoc]
  · trivial

theorem updateValues_cons (f : WFile) (offset : Nat) (v : List Char)
    (rest : List (List Char)) (h : v.length ≤ FAKE_HEADER.length) :
    updateValues f offset (v :: rest) =
      updateValues ((f.seek offset).write v) (offset + FAKE_HEADER.length) rest := by
  conv_lhs => unfold updateValues
  rw [if_neg (by omega)]

theorem updateValues_structure (A B C rest v1 v2 v3 : List Char) (q : Nat)
    (hA : A.length = FAKE_HEADER.length) (hB : B.length = FAKE_HEADER.length)
    (hC : C.length = FAKE_HEADER.length)
    (h1 : v1.length ≤ FAKE_HEADER.length) (h2 : v2.length ≤ FAKE_HEADER.length)
    (h3 : v3.length ≤ FAKE_HEADER.length) :
    updateValues ⟨A ++ (B ++ (C ++ rest)), q⟩ 0 [v1, v2, v3] =
      Except.ok ⟨(v1 ++ A.drop v1.length) ++ ((v2 ++ B.drop v2.length) ++
          ((v3 ++ C.drop v3.length) ++ rest)),
        2 * FAKE_HEADER.length + v3.length⟩ := by
  have hv1 : v1.length ≤ A.length := by rw [hA]; exact h1
  have hv2 : v2.length ≤ B.length := by rw [hB]; exact h2
  have hv3 : v3.length ≤ C.length := by rw [hC]; exact h3
  have e1 := seekWrite_block [] A (B ++ (C ++ rest)) v1 q hv1
  simp only [List.nil_append, List.length_nil, Nat.zero_add] at e1
  have hlen1 : (v1 ++ A.drop v1.length).length = 0 + FAKE_HEADER.length := by
    simp [hA]
    omega
  rw [updateValues_cons _ _ _ _ h1, e1, updateValues_cons _ _ _ _ h2, ← hlen1]
  have e2 := seekWrite_block (v1 ++ A.drop v1.length) B (C ++ rest) v2 v1.length hv2
  rw [e2, updateValues_cons _ _ _ _ h3]
  have hlen2 :
      ((v1 ++ A.drop v1.length) ++ (v2 ++ B.drop v2.length)).length =
        (v1 ++ A.drop v1.length).length + FAKE_HEADER.length := by
    simp [hB]
    omega
  rw [← List.append_assoc (v1 ++ A.drop v1.length) (v2 ++ B.drop v2.length) (C ++ rest),
    ← hlen2]
  have e3 := seekWrite_block ((v1 ++ A.drop v1.length) ++ (v2 ++ B.drop v2.length))
    C rest v3 ((v1 ++ A.drop v1.length).length + v2.length) hv3
  rw [e3]
  show updateValues _ _ [] = _
  unfold updateValues
  simp only [Except.ok.injEq, WFile.mk.injEq]
  constructor
  · simp [List.append_assoc]
  · simp [hA, hB]
    omega

theorem drop_replicate (k n : Nat) (a : Char) :
    (List.replicate n a).drop k = List.replicate (n - k) a := by
  induction k generalizing n with
  | zero => simp
  | succ k ih =>
    cases n with
    | zero => simp
    | succ n =>
      rw [List.replicate_succ, List.drop_succ_cons, ih n]
      congr 1
      omega

theorem fake_drop (v : Int) (h : (reprInt v).length ≤ MAX_HEADER_LENGTH) :
    reprInt v ++ FAKE_HEADER.drop (reprInt v).length = hline v := by
  unfold FAKE_HEADER hline
  rw [List.drop_append_of_le_length (by simpa using h), drop_replicate]

theorem hline_length (v : Int) (h : (reprInt v).length ≤ MAX_HEADER_LENGTH) :
    (hline v).length = FAKE_HEADER.length := by
  simp [hline, FAKE_HEADER]
  omega

/-- C5 (amended): the placeholder header is exactly three reserved lines of
`FAKE_HEADER` (a value slot of `MAX_HEADER_LENGTH = 20` bytes plus its
newline, 21 bytes per line); patching counts whose printed form fits the
20-byte slot seeks to byte offsets `i * len(FAKE_HEADER)` — `0`, `21`, `42` —
producing the three padded lines with each value at the very start of its own
reserved line. -/
theorem c5_header_layout (d t n : Int)
    (hd : (reprInt d).length ≤ MAX_HEADER_LENGTH)
    (ht : (reprInt t).length ≤ MAX_HEADER_LENGTH)
    (hn : (reprInt n).length ≤ MAX_HEADER_LENGTH) :
    (write_headers ⟨[], 0⟩).data = FAKE_HEADER ++ (FAKE_HEADER ++ FAKE_HEADER) ∧
    FAKE_HEADER.length = MAX_HEADER_LENGTH + 1 ∧
    update_headers (write_headers ⟨[], 0⟩) d t n =
      Except.ok ⟨hline d ++ (hline t ++ hline n),
        2 * FAKE_HEADER.length + (reprInt n).length⟩ ∧
    (hline d ++ (hline t ++ hline n)).take (reprInt d).length = reprInt d ∧
    ((hline d ++ (hline t ++ hline n)).drop (1 * FAKE_HEADER.length)).take
        (reprInt t).length = reprInt t ∧
    ((hline d ++ (hline t ++ hline n)).drop (2 * FAKE_HEADER.length)).take
        (reprInt n).length = reprInt n := by
  have hF : FAKE_HEADER.length = MAX_HEADER_LENGTH + 1 := by decide
  have hd' : (reprInt d).length ≤ FAKE_HEADER.length := by omega
  have ht' : (reprInt t).length ≤ FAKE_HEADER.length := by omega
  have hn' : (reprInt n).length ≤ FAKE_HEADER.length := by omega
  have hdr : write_headers ⟨[], 0⟩ =
      ⟨FAKE_HEADER ++ (FAKE_HEADER ++ (FAKE_HEADER ++ [])), 63⟩ := by decide
  have hmain : update_headers (write_headers ⟨[], 0⟩) d t n =
      Except.ok ⟨hline d ++ (hline t ++ hline n),
        2 * FAKE_HEADER.length + (reprInt n).length⟩ := by
    unfold update_headers
    rw [hdr, updateValues_structure FAKE_HEADER FAKE_HEADER FAKE_HEADER []
      (reprInt d) (reprInt t) (reprInt n) 63 rfl rfl rfl hd' ht' hn']
    rw [fake_drop d hd, fake_drop t ht, fake_drop n hn]
    simp [List.append_assoc]
  refine ⟨by rw [hdr]; simp, hF, hmain, ?_, ?_, ?_⟩
  · rw [hline, List.append_assoc, List.take_left]
  · rw [Nat.one_mul, ← hline_length d hd, List.drop_left, hline, List.append_assoc,
      List.take_left]
  · have h2 : (hline d ++ hline t).length = 2 * FAKE_HEADER.length := by
      rw [List.length_append, hline_length d hd, hline_length t ht]
      omega
    rw [← List.append_assoc, List.drop_left' h2, hline, List.take_left]

/-- Witness for C5 at the concrete counts `3, 4, 5`. -/
theorem c5_header_layout_witness :
    (write_headers ⟨[], 0⟩).data = FAKE_HEADER ++ (FAKE_HEADER ++ FAKE_HEADER) ∧
    FAKE_HEADER.length = MAX_HEADER_LENGTH + 1 ∧
    update_headers (write_headers ⟨[], 0⟩) 3 4 5 =
      Except.ok ⟨hline 3 ++ (hline 4 ++ hline 5),
        2 * FAKE_HEADER.length + (reprInt 5).length⟩ ∧
    (hline 3 ++ (hline 4 ++ hline 5)).take (reprInt 3).length = reprInt 3 ∧
    ((hline 3 ++ (hline 4 ++ hline 5)).drop (1 * FAKE_HEADER.length)).take
        (reprInt 4).length = reprInt 4 ∧
    ((hline 3 ++ (hline 4 ++ hline 5)).drop (2 * FAKE_HEADER.length)).take
        (reprInt 5).length = reprInt 5 :=
  c5_header_layout 3 4 5 (by decide) (by decide) (by decide)

theorem digitChar_ne_nl (k : Nat) : digitChar k ≠ '\n' := by
  unfold digitChar
  split <;> decide

theorem mem_natReprAux {fuel n : Nat} {c : Char} (h : c ∈ natReprAux fuel n) :
    ∃ k, c = digitChar k := by
  induction fuel generalizing n with
  | zero => simp [natReprAux] at h
  | succ fuel ih =>
    unfold natReprAux at h
    by_cases h10 : n < 10
    · rw [if_pos h10] at h
      simp at h
      exact ⟨n, h⟩
    · rw [if_neg h10] at h
      rcases List.mem_append.mp h with h | h
      · exact ih h
      · simp at h
        exact ⟨n % 10, h⟩

theorem nl_not_mem_reprNat (n : Nat) : '\n' ∉ reprNat n := by
  intro h
  obtain ⟨k, hk⟩ := mem_natReprAux h
  exact digitChar_ne_nl k hk.symm

theorem nl_not_mem_reprInt (w : Int) : '\n' ∉ reprInt w := by
  cases w with
  | ofNat n => exact nl_not_mem_reprNat n
  | negSucc n =>
    intro h
    rcases List.mem_cons.mp h with h | h
    · exact absurd h (by decide)
    · exact nl_not_mem_reprNat (n + 1) h

theorem count_nl_entryLine (docno termid : Nat) (w : Int) :
    (entryLine docno termid w).count '\n' = 1 := by
  have h1 : (reprNat (docno + 1)).count '\n' = 0 :=
    List.count_eq_zero.mpr (nl_not_mem_reprNat _)
  have h2 : (reprNat (termid + 1)).count '\n' = 0 :=
    List.count_eq_zero.mpr (nl_not_mem_reprNat _)
  have h3 : (reprInt w).count '\n' = 0 :=
    List.count_eq_zero.mpr (nl_not_mem_reprInt w)
  simp [entryLine, List.count_append, List.count_cons, h1, h2, h3]

theorem write_append (f : WFile) (s : List Char) (h : f.pos = f.data.length) :
    f.write s = ⟨f.data ++ s, f.data.length + s.length⟩ := by
  unfold WFile.write
  rw [h, List.take_length, List.drop_eq_nil_of_le (by omega)]
  simp

theorem foldl_write_entry (docno : Nat) (l : List (Nat × Int)) :
    ∀ f : WFile, f.pos = f.data.length →
    (l.foldl (fun g p => g.write (entryLine docno p.1 p.2)) f).data =
        f.data ++ (l.map fun p => entryLine docno p.1 p.2).flatten ∧
    (l.foldl (fun g p => g.write (entryLine docno p.1 p.2)) f).pos =
      (l.foldl (fun g p => g.write (entryLine docno p.1 p.2)) f).data.length := by
  induction l with
  | nil =>
    intro f h
    constructor
    · simp
    · exact h
  | cons p l ih =>
    intro f h
    have hw := write_append f (entryLine docno p.1 p.2) h
    have hpos : (f.write (entryLine docno p.1 p.2)).pos =
        (f.write (entryLine docno p.1 p.2)).data.length := by
      rw [hw]
      simp
    obtain ⟨ihdata, ihpos⟩ := ih (f.write (entryLine docno p.1 p.2)) hpos
    refine ⟨?_, by simpa using ihpos⟩
    simp only [List.foldl_cons] at *
    rw [ihdata, hw]
    simp [List.append_assoc]

theorem count_nl_flatten (docno : Nat) (l : List (Nat × Int)) :
    ((l.map fun p => entryLine docno p.1 p.2).flatten).count '\n' = l.length := by
  induction l with
  | nil => simp
  | cons p l ih =>
    simp only [List.map_cons, List.flatten_cons, List.count_append, ih,
      count_nl_entryLine, List.length_cons]
    omega

theorem write_vector_data (f : WFile) (docno : Nat) (v : List (Nat × Int))
    (h : f.pos = f.data.length) :
    ∃ ext : List Char,
      (write_vector f docno v).1.data = f.data ++ ext ∧
      (write_vector f docno v).1.pos = (write_vector f docno v).1.data.length ∧
      ext.count '\n' = v.length := by
  unfold write_vector
  simp only
  set sorted := v.insertionSort fun a b => a.1 < b.1 ∨ (a.1 = b.1 ∧ a.2 ≤ b.2) with hs
  obtain ⟨hdata, hpos⟩ := foldl_write_entry docno sorted f h
  refine ⟨(sorted.map fun p => entryLine docno p.1 p.2).flatten, hdata, hpos, ?_⟩
  rw [count_nl_flatten]
  exact (List.perm_insertionSort _ v).length_eq

theorem stepDoc_file (index : Bool) (st : WcState) (docno : Nat) (bow : Bow)
    (h : st.f.pos = st.f.data.length) :
    ∃ ext : List Char,
      (stepDoc index st docno bow).f.data = st.f.data ++ ext ∧
      (stepDoc index st docno bow).f.pos = (stepDoc index st docno bow).f.data.length ∧
      ext.count '\n' = (docVector bow).length ∧
      (stepDoc index st docno bow).num_nnz = st.num_nnz + (docVector bow).length := by
  unfold stepDoc
  by_cases hix : index
  · simp only [if_pos hix]
    obtain ⟨ext, h1, h2, h3⟩ := write_vector_data st.f docno (docVector bow) h
    exact ⟨ext, h1, h2, h3, rfl⟩
  · simp only [if_neg hix]
    obtain ⟨ext, h1, h2, h3⟩ := write_vector_data st.f docno (docVector bow) h
    exact ⟨ext, h1, h2, h3, rfl⟩

theorem writeLoop_file (index : Bool) (bows : List Bow) :
    ∀ (st : WcState) (docno : Nat), st.f.pos = st.f.data.length →
    ∃ ext : List Char,
      (writeLoop index st docno bows).f.data = st.f.data ++ ext ∧
      (writeLoop index st docno bows).f.pos =
        (writeLoop index st docno bows).f.data.length ∧
      ext.count '\n' = (bows.map fun b => (docVector b).length).sum ∧
      (writeLoop index st docno bows).num_nnz =
        st.num_nnz + (bows.map fun b => (docVector b).length).sum := by
  induction bows with
  | nil =>
    intro st docno h
    exact ⟨[], by simp [writeLoop], h, by simp, by simp [writeLoop]⟩
  | cons bow rest ih =>
    intro st docno h
    obtain ⟨e1, hd1, hp1, hc1, hn1⟩ := stepDoc_file index st docno bow h
    obtain ⟨e2, hd2, hp2, hc2, hn2⟩ := ih (stepDoc index st docno bow) (docno + 1) hp1
    refine ⟨e1 ++ e2, ?_, ?_, ?_, ?_⟩
    · show (writeLoop index (stepDoc index st docno bow) (docno + 1) rest).f.data = _
      rw [hd2, hd1, List.append_assoc]
    · exact hp2
    · simp [List.count_append, hc1, hc2]
    · show (writeLoop index (stepDoc index st docno bow) (docno + 1) rest).num_nnz = _
      rw [hn2, hn1]
      simp
      omega

theorem update_headers_ok_lengths {f : WFile} {d t n : Int} {f' : WFile}
    (h : update_headers f d t n = Except.ok f') :
    (reprInt d).length ≤ FAKE_HEADER.length ∧
    (reprInt t).length ≤ FAKE_HEADER.length ∧
    (reprInt n).length ≤ FAKE_HEADER.length := by
  unfold update_headers at h
  by_cases h1 : (reprInt d).length > FAKE_HEADER.length
  · rw [show updateValues f 0 [reprInt d, reprInt t, reprInt n] =
        Except.error "Invalid header: value too large!" from by
      conv_lhs => unfold updateValues
      rw [if_pos h1]] at h
    exact Except.noConfusion h
  · rw [updateValues_cons _ _ _ _ (by omega)] at h
    by_cases h2 : (reprInt t).length > FAKE_HEADER.length
    · rw [show updateValues ((f.seek 0).write (reprInt d)) (0 + FAKE_HEADER.length)
          [reprInt t, reprInt n] = Except.error "Invalid header: value too large!" from by
        conv_lhs => unfold updateValues
        rw [if_pos h2]] at h
      exact Except.noConfusion h
    · rw [updateValues_cons _ _ _ _ (by omega)] at h
      by_cases h3 : (reprInt n).length > FAKE_HEADER.length
      · rw [show updateValues (((((f.seek 0).write (reprInt d))).seek
            (0 + FAKE_HEADER.length)).write (reprInt t))
            (0 + FAKE_HEADER.length + FAKE_HEADER.length) [reprInt n] =
            Except.error "Invalid header: value too large!" from by
          conv_lhs => unfold updateValues
          rw [if_pos h3]] at h
        exact Except.noConfusion h
      · exact ⟨by omega, by omega, by omega⟩

theorem write_corpus_ok {corpus : List Bow} {index : Bool} {f : WFile}
    (hu : update_headers (writeLoop index initState 0 corpus).f
        ((writeLoop index initState 0 corpus).docno + 1)
        (writeLoop index initState 0 corpus).num_terms
        ((writeLoop index initState 0 corpus).num_nnz : Int) = Except.ok f) :
    write_corpus corpus index =
      Except.ok ⟨f, (writeLoop index initState 0 corpus).offsets,
        (writeLoop index initState 0 corpus).docno + 1,
        (writeLoop index initState 0 corpus).num_terms,
        (writeLoop index initState 0 corpus).num_nnz⟩ := by
  simp only [write_corpus]
  rw [hu]

theorem write_corpus_error {corpus : List Bow} {index : Bool} {e : String}
    (hu : update_headers (writeLoop index initState 0 corpus).f
        ((writeLoop index initState 0 corpus).docno + 1)
        (writeLoop index initState 0 corpus).num_terms
        ((writeLoop index initState 0 corpus).num_nnz : Int) = Except.error e) :
    write_corpus corpus index = Except.error e := by
  simp only [write_corpus]
  rw [hu]

theorem chunk_length (v : Int) (h : (reprInt v).length ≤ FAKE_HEADER.length) :
    (reprInt v ++ FAKE_HEADER.drop (reprInt v).length).length = FAKE_HEADER.length := by
  simp
  omega

/-- C6: for every corpus handed to the UCI writer, `num_nnz` is exactly the
number of pairs whose integer-coerced weight is non-zero, and the body of the
written file (everything after the three reserved header lines) holds exactly
`num_nnz` entry lines: zero-coerced pairs produce no line and are not
counted. -/
theorem c6_zero_weight (corpus : List Bow) (index : Bool)
    (h : (write_corpus corpus index).isOk = true) :
    (getOk (write_corpus corpus index)).num_nnz =
      (corpus.map fun bow => (docVector bow).length).sum ∧
    ((getOk (write_corpus corpus index)).file.data.drop
        (3 * FAKE_HEADER.length)).count '\n' =
      (getOk (write_corpus corpus index)).num_nnz := by
  have hinit : initState.f.pos = initState.f.data.length := by decide
  obtain ⟨ext, hdata, hpos, hcount, hnnz⟩ := writeLoop_file index corpus initState 0 hinit
  have hshape : (writeLoop index initState 0 corpus).f.data =
      FAKE_HEADER ++ (FAKE_HEADER ++ (FAKE_HEADER ++ ext)) := by
    rw [hdata]
    have hi : initState.f.data = FAKE_HEADER ++ (FAKE_HEADER ++ (FAKE_HEADER ++ [])) := by
      decide
    rw [hi]
    simp [List.append_assoc]
  cases hu : update_headers (writeLoop index initState 0 corpus).f
      ((writeLoop index initState 0 corpus).docno + 1)
      (writeLoop index initState 0 corpus).num_terms
      ((writeLoop index initState 0 corpus).num_nnz : Int) with
  | error e =>
    exfalso
    rw [write_corpus_error hu] at h
    simp [Except.isOk, Except.toBool] at h
  | ok f =>
    rw [write_corpus_ok hu]
    have hzero : initState.num_nnz = 0 := rfl
    constructor
    · show (writeLoop index initState 0 corpus).num_nnz = _
      rw [hnnz, hzero]
      simp [getOk]
    · obtain ⟨hb1, hb2, hb3⟩ := update_headers_ok_lengths hu
      have hu2 : update_headers
          (⟨FAKE_HEADER ++ (FAKE_HEADER ++ (FAKE_HEADER ++ ext)),
            (writeLoop index initState 0 corpus).f.pos⟩ : WFile)
          ((writeLoop index initState 0 corpus).docno + 1)
          (writeLoop index initState 0 corpus).num_terms
          ((writeLoop index initState 0 corpus).num_nnz : Int) = Except.ok f := by
        rw [← hshape]
        exact hu
      unfold update_headers at hu2
      rw [updateValues_structure FAKE_HEADER FAKE_HEADER FAKE_HEADER ext
        (reprInt ((writeLoop index initState 0 corpus).docno + 1))
        (reprInt (writeLoop index initState 0 corpus).num_terms)
        (reprInt ((writeLoop index initState 0 corpus).num_nnz : Int))
        (writeLoop index initState 0 corpus).f.pos rfl rfl rfl hb1 hb2 hb3] at hu2
      have hf : f = ⟨(reprInt ((writeLoop index initState 0 corpus).docno + 1) ++
          FAKE_HEADER.drop (reprInt ((writeLoop index initState 0 corpus).docno + 1)).length) ++
          ((reprInt (writeLoop index initState 0 corpus).num_terms ++
            FAKE_HEADER.drop (reprInt (writeLoop index initState 0 corpus).num_terms).length) ++
          ((reprInt ((writeLoop index initState 0 corpus).num_nnz : Int) ++
            FAKE_HEADER.drop (reprInt ((writeLoop index initState 0 corpus).num_nnz : Int)).length) ++ ext)),
          2 * FAKE_HEADER.length +
            (reprInt ((writeLoop index initState 0 corpus).num_nnz : Int)).length⟩ := by
        exact (Except.ok.inj hu2).symm
      show (f.data.drop (3 * FAKE_HEADER.length)).count '\n' =
        (writeLoop index initState 0 corpus).num_nnz
      rw [hf]
      simp only
      rw [← List.append_assoc, ← List.append_assoc]
      rw [List.drop_left' (by
        rw [List.length_append, List.length_append, chunk_length _ hb1,
          chunk_length _ hb2, chunk_length _ hb3]
        omega)]
      rw [hcount, hnnz, hzero]
      omega

/-- Witness for C6: a document with an integer weight, a fractional weight
that coerces to zero, and a literal zero weight — only one line survives. -/
theorem c6_zero_weight_witness :
    (getOk (write_corpus [[(0, (3 : ℚ)), (1, mkRat 1 2), (2, 0)]] true)).num_nnz =
      ([[(0, (3 : ℚ)), (1, mkRat 1 2), (2, 0)]].map fun bow => (docVector bow).length).sum ∧
    ((getOk (write_corpus [[(0, (3 : ℚ)), (1, mkRat 1 2), (2, 0)]] true)).file.data.drop
        (3 * FAKE_HEADER.length)).count '\n' =
      (getOk (write_corpus [[(0, (3 : ℚ)), (1, mkRat 1 2), (2, 0)]] true)).num_nnz :=
  c6_zero_weight [[(0, (3 : ℚ)), (1, mkRat 1 2), (2, 0)]] true (by decide)

/-- C8 (amended): truncation never makes opening a UCI corpus fail —
`StopIteration` is swallowed and every count whose line is missing silently
keeps its default `0`: an empty file yields `(0, 0, 0)`, a one-line numeric
file `(nd, 0, 0)`, a two-line numeric file `(nd, nt, 0)`. The read aborts
only on a present but non-numeric header line — first, second or third —
with the `ValueError` of `int()`. -/
theorem c8_truncated_header :
    (∀ data : List Char, splitLines data = [] →
        uciReaderInit data = Except.ok (0, 0, 0)) ∧
    (∀ (data l1 : List Char) (rest : List (List Char)),
        splitLines data = l1 :: rest → parsePyInt l1 = none →
        uciReaderInit data = Except.error "ValueError") ∧
    (∀ (data l1 : List Char) (k : Int),
        splitLines data = [l1] → parsePyInt l1 = some k →
        uciReaderInit data = Except.ok (k, 0, 0)) ∧
    (∀ (data l1 l2 : List Char) (nd nt : Int),
        splitLines data = [l1, l2] → parsePyInt l1 = some nd →
        parsePyInt l2 = some nt →
        uciReaderInit data = Except.ok (nd, nt, 0)) ∧
    (∀ (data l1 l2 : List Char) (rest : List (List Char)) (nd : Int),
        splitLines data = l1 :: l2 :: rest → parsePyInt l1 = some nd →
        parsePyInt l2 = none →
        uciReaderInit data = Except.error "ValueError") ∧
    (∀ (data l1 l2 l3 : List Char) (rest : List (List Char)) (nd nt : Int),
        splitLines data = l1 :: l2 :: l3 :: rest → parsePyInt l1 = some nd →
        parsePyInt l2 = some nt → parsePyInt l3 = none →
        uciReaderInit data = Except.error "ValueError") := by
  refine ⟨?_, ?_, ?_, ?_, ?_, ?_⟩
  · intro data h
    unfold uciReaderInit
    rw [h]
  · intro data l1 rest h hp
    unfold uciReaderInit
    rw [h]
    simp [hp]
  · intro data l1 k h hp
    unfold uciReaderInit
    rw [h]
    simp [hp]
  · intro data l1 l2 nd nt h hp1 hp2
    unfold uciReaderInit
    rw [h]
    simp [hp1, hp2]
  · intro data l1 l2 rest nd h hp1 hp2
    unfold uciReaderInit
    rw [h]
    simp [hp1, hp2]
  · intro data l1 l2 l3 rest nd nt h hp1 hp2 hp3
    unfold uciReaderInit
    rw [h]
    simp [hp1, hp2, hp3]

/-- Witness for C8 at concrete files of every shape the theorem covers: a
non-numeric first line, a one-line numeric file, a two-line numeric file, a
non-numeric second line, and a non-numeric third line. -/
theorem c8_truncated_header_witness :
    uciReaderInit ['x'] = Except.error "ValueError" ∧
    uciReaderInit ['5', '\n'] = Except.ok (5, 0, 0) ∧
    uciReaderInit ['5', '\n', '7', '\n'] = Except.ok (5, 7, 0) ∧
    uciReaderInit ['5', '\n', 'x', '\n'] = Except.error "ValueError" ∧
    uciReaderInit ['5', '\n', '7', '\n', 'z'] = Except.error "ValueError" :=
  ⟨c8_truncated_header.2.1 ['x'] ['x'] [] (by decide) (by decide),
   c8_truncated_header.2.2.1 ['5', '\n'] ['5', '\n'] 5 (by decide) (by decide),
   c8_truncated_header.2.2.2.1 ['5', '\n', '7', '\n'] ['5', '\n'] ['7', '\n'] 5 7
     (by decide) (by decide) (by decide),
   c8_truncated_header.2.2.2.2.1 ['5', '\n', 'x', '\n'] ['5', '\n'] ['x', '\n'] [] 5
     (by decide) (by decide) (by decide),
   c8_truncated_header.2.2.2.2.2 ['5', '\n', '7', '\n', 'z'] ['5', '\n'] ['7', '\n']
     ['z'] [] 5 7 (by decide) (by decide) (by decide) (by decide)⟩

theorem foldl_max_shift (l : List Nat) (a : Int) :
    ∀ b : Int, max a (1 + l.foldl maxOf b) =
      l.foldl maxSucc (max a (1 + b)) := by
  induction l with
  | nil => intro b; simp
  | cons i l ih =>
    intro b
    simp only [List.foldl_cons]
    rw [ih (maxOf b i)]
    congr 1
    simp only [maxOf, maxSucc]
    omega

theorem wv_max_id (v : List (Nat × Int)) (a : Int) (h0 : 0 ≤ a) :
    max a (1 + v.foldl (fun x p => max x (p.1 : Int)) (-1)) =
      (v.map (·.1)).foldl maxSucc a := by
  have hm : v.foldl (fun x p => max x (p.1 : Int)) (-1) =
      (v.map (·.1)).foldl maxOf (-1) := by
    rw [List.foldl_map]
    rfl
  rw [hm, foldl_max_shift]
  congr 1
  omega

theorem le_foldl_max (l : List Nat) : ∀ a : Int,
    a ≤ l.foldl maxSucc a := by
  induction l with
  | nil => intro a; simp
  | cons i l ih =>
    intro a
    simp only [List.foldl_cons]
    exact le_trans (le_max_left _ _) (ih _)

theorem stepDoc_num_terms (index : Bool) (st : WcState) (docno : Nat) (bow : Bow)
    (h0 : 0 ≤ st.num_terms) :
    (stepDoc index st docno bow).num_terms =
      ((docVector bow).map (·.1)).foldl maxSucc st.num_terms := by
  unfold stepDoc write_vector
  by_cases hix : index
  · simp only [if_pos hix]
    exact wv_max_id _ _ h0
  · simp only [if_neg hix]
    exact wv_max_id _ _ h0

theorem writeLoop_num_terms (index : Bool) (bows : List Bow) :
    ∀ (st : WcState) (docno : Nat), 0 ≤ st.num_terms →
    (writeLoop index st docno bows).num_terms =
      (bows.flatMap fun b => (docVector b).map (·.1)).foldl maxSucc
        st.num_terms := by
  induction bows with
  | nil => intro st docno _; simp [writeLoop]
  | cons bow rest ih =>
    intro st docno h0
    have hstep := stepDoc_num_terms index st docno bow h0
    have h0' : 0 ≤ (stepDoc index st docno bow).num_terms := by
      rw [hstep]
      exact le_trans h0 (le_foldl_max _ _)
    show (writeLoop index (stepDoc index st docno bow) (docno + 1) rest).num_terms = _
    rw [ih _ (docno + 1) h0', hstep, List.flatMap_cons, List.foldl_append]

/-- C7 (amended): with a caller-supplied vocabulary the coordinate dialect
writes `len(id2word)` as the header `num_terms`; the UCI dialect ignores the
declared vocabulary for the corpus file — `UciCorpus.save_corpus` never hands
`id2word` to `UciWriter.write_corpus`, so the patched `num_terms` is always
the observed maximum over written pairs of `1 + feature id` (`0` when no pair
is written), whatever mapping is supplied. -/
theorem c7_declared_num_terms (corpus : List Bow) (l m : List (Nat × String))
    (h : ((uci_save_corpus corpus (some m)).2).isOk = true) :
    (mm_save_corpus corpus (some l)).2.1 = (l.length : Int) ∧
    (getOk (uci_save_corpus corpus (some m)).2).num_terms =
      specNumTermsUci corpus := by
  constructor
  · rfl
  · show (getOk (write_corpus corpus true)).num_terms = _
    cases hu : update_headers (writeLoop true initState 0 corpus).f
        ((writeLoop true initState 0 corpus).docno + 1)
        (writeLoop true initState 0 corpus).num_terms
        ((writeLoop true initState 0 corpus).num_nnz : Int) with
    | error e =>
      exfalso
      have h2 : (write_corpus corpus true).isOk = true := h
      rw [write_corpus_error hu] at h2
      simp [Except.isOk, Except.toBool] at h2
    | ok f =>
      rw [write_corpus_ok hu]
      show (writeLoop true initState 0 corpus).num_terms = _
      rw [writeLoop_num_terms true corpus initState 0 (by decide)]
      rfl

/-- Witness for C7 at a concrete corpus and two concrete vocabularies. -/
theorem c7_declared_num_terms_witness :
    (mm_save_corpus [[(0, (1 : ℚ)), (5, 2)]] (some [(0, "a")])).2.1 =
      (([(0, "a")] : List (Nat × String)).length : Int) ∧
    (getOk (uci_save_corpus [[(0, (1 : ℚ)), (5, 2)]]
        (some [(1, "x"), (2, "y")])).2).num_terms =
      specNumTermsUci [[(0, (1 : ℚ)), (5, 2)]] :=
  c7_declared_num_terms [[(0, (1 : ℚ)), (5, 2)]] [(0, "a")] [(1, "x"), (2, "y")]
    (by decide)

/-- C10: `UciCorpus.save_corpus` always produces a vocabulary file with
exactly `num_terms` lines — `num_terms` being `1 + max(id2word)` for a
non-empty supplied mapping, `0` for an empty one, and the size of the
vocabulary inferred from the corpus when none is supplied — where line `i`
holds the word mapped to feature id `i`, or the `---` placeholder when the
mapping lacks that id, in ascending id order. -/
theorem c10_vocab_file (corpus : List Bow) (id2word : Option (List (Nat × String))) :
    (uci_save_corpus corpus id2word).1 =
      (List.range (match id2word with
        | none => (dict_from_corpus corpus).length
        | some m => if m ≠ [] then 1 + maxKey m else 0)).map
        (fun i => (((match id2word with
          | none => dict_from_corpus corpus
          | some m => m).lookup i).getD "---") ++ "\n") ∧
    (uci_save_corpus corpus id2word).1.length =
      (match id2word with
        | none => (dict_from_corpus corpus).length
        | some m => if m ≠ [] then 1 + maxKey m else 0) ∧
    (∀ i : Nat, (uci_save_corpus corpus id2word).1[i]? =
      if i < (match id2word with
        | none => (dict_from_corpus corpus).length
        | some m => if m ≠ [] then 1 + maxKey m else 0) then
        some ((((match id2word with
          | none => dict_from_corpus corpus
          | some m => m).lookup i).getD "---") ++ "\n")
      else none) := by
  refine ⟨rfl, ?_, ?_⟩
  · cases id2word <;> simp [uci_save_corpus]
  · have key : ∀ (i n : Nat) (f : Nat → String), ((List.range n).map f)[i]? =
        if i < n then some (f i) else none := by
      intro i n f
      by_cases hi : i < n
      · rw [if_pos hi, List.getElem?_map, List.getElem?_range hi]
        rfl
      · rw [if_neg hi, List.getElem?_eq_none]
        simp
        omega
    intro i
    cases id2word with
    | none => exact key _ _ _
    | some m => exact key _ _ _
